import Mathlib

/-!
Formalisation of the AZG (Austrian working-time law) compliance rules engine
from `src/lib/ai/azg-rules.ts`.

Modelling conventions, matching the TypeScript source:

* `HH:mm` time strings are zero-padded, so splitting on the colon and mapping
  to numbers yields an (hour, minute) pair, and `localeCompare` on the strings
  agrees with lexicographic comparison of the pairs.  We embed times as that
  structured pair (`HM`).
* `YYYY-MM-DD` date strings are likewise embedded as (year, month, day)
  triples (`Date`); string comparison agrees with lexicographic comparison of
  the triple.  JavaScript `new Date("YYYY-MM-DD")` parses to UTC midnight of
  the Gregorian date; we model the resulting instant with `Date.toDays`, the
  standard civil-from-days day count, so differences of `getTime()` values on
  date-only strings are `toDays` differences (in days).
* JavaScript numbers are embedded as exact rationals (`ℚ`).  Every quantity
  the engine computes is an integer number of minutes divided by 60; at that
  granularity IEEE-754 doubles are exact enough that every comparison against
  the integer thresholds (6, 10, 11, 12, 40, 60) coincides with the exact
  rational comparison, so the rational model is faithful.
* The human-readable `message` field of a violation is omitted from the
  embedding: it is presentation-only and no property refers to it.
* `Array.prototype.sort` is stable; we embed the two sorts (the comparator
  sort in `validateRestTime` and the default string sort in
  `validateConsecutiveDays`) as stable insertion sorts over the order the
  comparator induces.  `new Set(...)` preserves first-insertion order, which
  `dedupFirst` mirrors.
-/

namespace AZG

/-- Clock time of day, from an `HH:mm` string. -/
structure HM where
  hour : Nat
  minute : Nat
deriving DecidableEq, Repr

/-- Minutes since midnight, as in `startH * 60 + startM` in the source. -/
def HM.toMinutes (t : HM) : Nat := t.hour * 60 + t.minute

/-- Calendar date, from a `YYYY-MM-DD` string. -/
structure Date where
  year : Nat
  month : Nat
  day : Nat
deriving DecidableEq, Repr

/-- Day count of the Gregorian date (days since 1970-01-01), the standard
civil-days computation; models the instant `new Date("YYYY-MM-DD")` denotes,
measured in days. -/
def Date.toDays (dt : Date) : Int :=
  let y : Int := if dt.month ≤ 2 then (dt.year : Int) - 1 else (dt.year : Int)
  let era : Int := y.fdiv 400
  let yoe : Int := y - era * 400
  let mp : Nat := (dt.month + 9) % 12
  let doy : Int := ((153 * mp + 2) / 5 : Nat) + (dt.day : Int) - 1
  let doe : Int := yoe * 365 + yoe.fdiv 4 - yoe.fdiv 100 + doy
  era * 146097 + doe - 719468

/-- The shift record of the source (`message`-free): `id`, `date`,
`startTime`, `endTime`, `breakMinutes`, `employeeId`. -/
structure Shift where
  id : String
  date : Date
  startTime : HM
  endTime : HM
  breakMinutes : Nat
  employeeId : String
deriving DecidableEq, Repr

namespace AZG_RULES

def MIN_DAILY_REST_HOURS : ℚ := 11
def MAX_DAILY_HOURS : ℚ := 12
def NORMAL_DAILY_HOURS : ℚ := 8
def NORMAL_WEEKLY_HOURS : ℚ := 40
def AVG_WEEKLY_MAX_HOURS : ℚ := 48
def AVERAGING_PERIOD_WEEKS : Nat := 17
def MAX_WEEKLY_HOURS : ℚ := 60
def NIGHT_WORK_START : Nat := 22
def NIGHT_WORK_END : Nat := 5
def MAX_NIGHT_SHIFT_HOURS : ℚ := 10
def BREAK_THRESHOLD_HOURS : ℚ := 6
def MIN_BREAK_MINUTES : Nat := 30
def MAX_CONSECUTIVE_WORK_DAYS : Nat := 6

end AZG_RULES

/-- The violation-type enumeration of the source. -/
inductive ViolationType where
  | MAX_DAILY_HOURS
  | MIN_REST_TIME
  | MAX_WEEKLY_HOURS
  | AVG_WEEKLY_HOURS
  | CONSECUTIVE_DAYS
  | NIGHT_WORK_LIMIT
  | MISSING_BREAK
deriving DecidableEq, Repr

/-- The two severities of the source. -/
inductive ViolationSeverity where
  | warning
  | violation
deriving DecidableEq, Repr

/-- The `details` payload of a violation (`date` and `employeeId` are optional
in the source interface). -/
structure Details where
  actual : ℚ
  limit : ℚ
  date : Option Date
  employeeId : Option String
deriving DecidableEq, Repr

/-- A compliance violation record (with the presentation-only `message` field
omitted). -/
structure ComplianceViolation where
  type : ViolationType
  severity : ViolationSeverity
  details : Details
deriving DecidableEq, Repr

/-- Function `calculateShiftHours`: minutes-since-midnight difference with a
1440-minute bump for overnight shifts, minus the break, divided by 60.  The
subtraction is over ℤ, as in the source, where a break longer than the span
yields a negative result. -/
def calculateShiftHours (shift : Shift) : ℚ :=
  let startMinutes : ℤ := shift.startTime.toMinutes
  let endMinutes : ℤ := shift.endTime.toMinutes
  let endMinutes : ℤ := if endMinutes < startMinutes then endMinutes + 24 * 60 else endMinutes
  let totalMinutes : ℤ := endMinutes - startMinutes - (shift.breakMinutes : ℤ)
  (totalMinutes : ℚ) / 60

/-- Function `isNightWork`: looks only at the hour components. -/
def isNightWork (shift : Shift) : Bool :=
  decide (AZG_RULES.NIGHT_WORK_START ≤ shift.startTime.hour) ||
    decide (shift.endTime.hour ≤ AZG_RULES.NIGHT_WORK_END) ||
    decide (shift.endTime.hour < shift.startTime.hour)

/-- Function `calculateRestHours`: wall-clock difference in hours between
`shift1.date` + `shift1.endTime` (taken literally) and `shift2.date` +
`shift2.startTime`.  The source computes it in milliseconds via `Date`;
dividing by 3 600 000 is the same as minutes divided by 60. -/
def calculateRestHours (shift1 shift2 : Shift) : ℚ :=
  let date1 : ℤ := shift1.date.toDays * 1440 + (shift1.endTime.toMinutes : ℤ)
  let date2 : ℤ := shift2.date.toDays * 1440 + (shift2.startTime.toMinutes : ℤ)
  ((date2 - date1 : ℤ) : ℚ) / 60

/-- Function `validateShift`: the three per-shift checks, in source order. -/
def validateShift (shift : Shift) : List ComplianceViolation :=
  let hours := calculateShiftHours shift
  (if hours > AZG_RULES.MAX_DAILY_HOURS then
    [{ type := .MAX_DAILY_HOURS, severity := .violation,
       details := { actual := hours, limit := AZG_RULES.MAX_DAILY_HOURS,
                    date := some shift.date, employeeId := some shift.employeeId } }]
   else []) ++
  (if isNightWork shift ∧ hours > AZG_RULES.MAX_NIGHT_SHIFT_HOURS then
    [{ type := .NIGHT_WORK_LIMIT, severity := .violation,
       details := { actual := hours, limit := AZG_RULES.MAX_NIGHT_SHIFT_HOURS,
                    date := some shift.date, employeeId := some shift.employeeId } }]
   else []) ++
  (if hours > AZG_RULES.BREAK_THRESHOLD_HOURS ∧
      shift.breakMinutes < AZG_RULES.MIN_BREAK_MINUTES then
    [{ type := .MISSING_BREAK, severity := .warning,
       details := { actual := (shift.breakMinutes : ℚ), limit := (AZG_RULES.MIN_BREAK_MINUTES : ℚ),
                    date := some shift.date, employeeId := some shift.employeeId } }]
   else [])

/-- Strict comparator order on dates: `localeCompare` of zero-padded
`YYYY-MM-DD` strings, i.e. lexicographic on (year, month, day). -/
def dateLT (a b : Date) : Bool :=
  decide (a.year < b.year) ||
    (decide (a.year = b.year) &&
      (decide (a.month < b.month) || (decide (a.month = b.month) && decide (a.day < b.day))))

/-- Strict comparator order on clock times: `localeCompare` of zero-padded
`HH:mm` strings, i.e. lexicographic on (hour, minute). -/
def timeLT (a b : HM) : Bool :=
  decide (a.hour < b.hour) || (decide (a.hour = b.hour) && decide (a.minute < b.minute))

/-- The comparator of `validateRestTime`'s sort: date first, then start time;
`shiftLT a b` holds when the comparator returns a negative number. -/
def shiftLT (a b : Shift) : Bool :=
  dateLT a.date b.date || (decide (a.date = b.date) && timeLT a.startTime b.startTime)

/-- Insert into a sorted list, before the first element not strictly below
`x` in the comparator order `lt`: the insertion step of a stable sort,
matching `Array.prototype.sort`. -/
def insertBy {α : Type} (lt : α → α → Bool) (x : α) : List α → List α
  | [] => [x]
  | y :: ys => if lt y x then y :: insertBy lt x ys else x :: y :: ys

/-- Stable insertion sort by the comparator order `lt`. -/
def sortBy {α : Type} (lt : α → α → Bool) : List α → List α
  | [] => []
  | x :: xs => insertBy lt x (sortBy lt xs)

/-- Stable sort of shifts by (date, startTime), the `[...shifts].sort(...)` of
`validateRestTime`. -/
def sortShifts (shifts : List Shift) : List Shift := sortBy shiftLT shifts

/-- The `MIN_REST_TIME` violation emitted for the adjacent sorted pair
`(a, b)`: dated on the later shift, attributed to the earlier one. -/
def restViolation (a b : Shift) : ComplianceViolation :=
  { type := .MIN_REST_TIME, severity := .violation,
    details := { actual := calculateRestHours a b, limit := AZG_RULES.MIN_DAILY_REST_HOURS,
                 date := some b.date, employeeId := some a.employeeId } }

/-- The adjacent-pair loop of `validateRestTime` (`for i in 0 .. length-2`). -/
def restPairs : List Shift → List ComplianceViolation
  | a :: b :: rest =>
      (if calculateRestHours a b < AZG_RULES.MIN_DAILY_REST_HOURS
       then [restViolation a b] else []) ++ restPairs (b :: rest)
  | _ => []

/-- Function `validateRestTime`: sort by (date, startTime), then scan adjacent
pairs for rest below the 11-hour minimum. -/
def validateRestTime (shifts : List Shift) : List ComplianceViolation :=
  restPairs (sortShifts shifts)

/-- Function `validateWeeklyHours`: total the hours of the shifts dated within
the inclusive seven-day window and compare against the weekly caps. -/
def validateWeeklyHours (shifts : List Shift) (weekStart : Date) : List ComplianceViolation :=
  let weekStartDays : ℤ := weekStart.toDays
  let weekEndDays : ℤ := weekStartDays + 6
  let weekShifts := shifts.filter fun s =>
    decide (weekStartDays ≤ s.date.toDays) && decide (s.date.toDays ≤ weekEndDays)
  let totalHours : ℚ := weekShifts.foldl (fun sum shift => sum + calculateShiftHours shift) 0
  if totalHours > AZG_RULES.MAX_WEEKLY_HOURS then
    [{ type := .MAX_WEEKLY_HOURS, severity := .violation,
       details := { actual := totalHours, limit := AZG_RULES.MAX_WEEKLY_HOURS,
                    date := some weekStart,
                    employeeId := weekShifts.head?.map Shift.employeeId } }]
  else if totalHours > AZG_RULES.NORMAL_WEEKLY_HOURS then
    [{ type := .MAX_WEEKLY_HOURS, severity := .warning,
       details := { actual := totalHours, limit := AZG_RULES.NORMAL_WEEKLY_HOURS,
                    date := some weekStart,
                    employeeId := weekShifts.head?.map Shift.employeeId } }]
  else []

/-- Deduplication keeping first occurrences: the effect of `new Set(...)` on
insertion order. -/
def dedupFirst (seen : List Date) : List Date → List Date
  | [] => []
  | d :: ds => if d ∈ seen then dedupFirst seen ds else d :: dedupFirst (d :: seen) ds

/-- The default `.sort()` on date strings, ascending. -/
def sortDates (dates : List Date) : List Date := sortBy dateLT dates

/-- The `CONSECUTIVE_DAYS` violation emitted when the run counter reaches
`consecutive` on date `d`. -/
def consecViolation (employeeId0 : Option String) (consecutive : Nat) (d : Date) :
    ComplianceViolation :=
  { type := .CONSECUTIVE_DAYS, severity := .violation,
    details := { actual := (consecutive : ℚ), limit := (AZG_RULES.MAX_CONSECUTIVE_WORK_DAYS : ℚ),
                 date := some d, employeeId := employeeId0 } }

/-- The scanning loop of `validateConsecutiveDays` over the sorted unique
dates, carrying the `consecutive` counter. -/
def consecutiveWalk (employeeId0 : Option String) : Nat → List Date → List ComplianceViolation
  | _, [] => []
  | _, [_] => []
  | consecutive, d1 :: d2 :: rest =>
      if d2.toDays - d1.toDays = 1 then
        (if consecutive + 1 > AZG_RULES.MAX_CONSECUTIVE_WORK_DAYS
         then [consecViolation employeeId0 (consecutive + 1) d2] else []) ++
          consecutiveWalk employeeId0 (consecutive + 1) (d2 :: rest)
      else
        consecutiveWalk employeeId0 1 (d2 :: rest)

/-- Function `validateConsecutiveDays`: unique work dates sorted ascending,
scanned with a run counter; `employeeId` comes from `shifts[0]`. -/
def validateConsecutiveDays (shifts : List Shift) : List ComplianceViolation :=
  let workDates := sortDates (dedupFirst [] (shifts.map Shift.date))
  consecutiveWalk (shifts.head?.map Shift.employeeId) 1 workDates

/-- Minutes spanned from `startTime` to `endTime` (with the overnight bump),
before the break is subtracted: the quantity the source calls
`endMinutes - startMinutes` after the wrap adjustment. -/
def spanMinutes (s : Shift) : ℤ :=
  let startMinutes : ℤ := s.startTime.toMinutes
  let endMinutes : ℤ := s.endTime.toMinutes
  (if endMinutes < startMinutes then endMinutes + 24 * 60 else endMinutes) - startMinutes

/-- The compliance report: flag, findings, 0–100 score. -/
structure ComplianceReport where
  isCompliant : Bool
  violations : List ComplianceViolation
  score : ℤ
deriving DecidableEq, Repr

/-- Function `checkFullCompliance`: per-shift findings in input order, then
rest-time findings, then consecutive-day findings; weighted score clamped at
zero. -/
def checkFullCompliance (shifts : List Shift) : ComplianceReport :=
  let allViolations :=
    (shifts.foldl (fun acc shift => acc ++ validateShift shift) [])
      ++ validateRestTime shifts ++ validateConsecutiveDays shifts
  let criticalViolations :=
    (allViolations.filter fun v => decide (v.severity = .violation)).length
  let warnings :=
    (allViolations.filter fun v => decide (v.severity = .warning)).length
  let score : ℤ := 100 - (criticalViolations : ℤ) * 20 - (warnings : ℤ) * 5
  { isCompliant := decide (criticalViolations = 0),
    violations := allViolations,
    score := max 0 score }

end AZG

namespace AZGSpec

open AZG

/-- Worked hours as the specification words them: convert the `HH:mm` fields
to minutes since midnight, add 1440 to the end when it is before the start,
subtract start and break, divide by 60. -/
def shiftHoursSpec (s : Shift) : ℚ :=
  let startM : ℤ := (s.startTime.hour : ℤ) * 60 + (s.startTime.minute : ℤ)
  let endM : ℤ := (s.endTime.hour : ℤ) * 60 + (s.endTime.minute : ℤ)
  (((endM + if endM < startM then 1440 else 0) - startM - (s.breakMinutes : ℤ) : ℤ) : ℚ) / 60

/-- Rest hours as the specification words them: the difference in hours
between the instant `a.date + a.endTime`, taken literally with no overnight
correction, and the instant `b.date + b.startTime`. -/
def restHoursSpec (a b : Shift) : ℚ :=
  (((b.date.toDays * 1440 + (b.startTime.toMinutes : ℤ)) -
    (a.date.toDays * 1440 + (a.endTime.toMinutes : ℤ)) : ℤ) : ℚ) / 60

/-- Per-shift validation as the specification words it: the three findings in
fixed order, each guarded by its strict threshold. -/
def validateShiftSpec (s : Shift) : List ComplianceViolation :=
  let hours := calculateShiftHours s
  (if hours > 12 then
    [{ type := .MAX_DAILY_HOURS, severity := .violation,
       details := { actual := hours, limit := 12,
                    date := some s.date, employeeId := some s.employeeId } }]
   else []) ++
  (if isNightWork s ∧ hours > 10 then
    [{ type := .NIGHT_WORK_LIMIT, severity := .violation,
       details := { actual := hours, limit := 10,
                    date := some s.date, employeeId := some s.employeeId } }]
   else []) ++
  (if hours > 6 ∧ s.breakMinutes < 30 then
    [{ type := .MISSING_BREAK, severity := .warning,
       details := { actual := (s.breakMinutes : ℚ), limit := 30,
                    date := some s.date, employeeId := some s.employeeId } }]
   else [])

/-- Rest-time validation as the specification words it: over the sorted list,
exactly the adjacent pairs are examined, and a pair `(a, b)` with rest below
11 hours yields one violation dated `b.date` and attributed to
`a.employeeId`. -/
def validateRestTimeSpec (shifts : List Shift) : List ComplianceViolation :=
  let sorted := sortShifts shifts
  (sorted.zip sorted.tail).filterMap fun p =>
    if restHoursSpec p.1 p.2 < 11 then
      some { type := .MIN_REST_TIME, severity := .violation,
             details := { actual := restHoursSpec p.1 p.2, limit := 11,
                          date := some p.2.date, employeeId := some p.1.employeeId } }
    else none

/-- One step of the specification's counter walk: bump or reset the counter,
then append a finding when it has just exceeded 6. -/
def consecStep (eid : Option String) (st : Nat × List ComplianceViolation) (p : Date × Date) :
    Nat × List ComplianceViolation :=
  let c := if p.2.toDays - p.1.toDays = 1 then st.1 + 1 else 1
  (c, st.2 ++ (if 6 < c then
    [{ type := .CONSECUTIVE_DAYS, severity := .violation,
       details := { actual := (c : ℚ), limit := 6,
                    date := some p.2, employeeId := eid } }]
    else []))

/-- Consecutive-days validation as the specification words it: walk the
deduplicated sorted dates with a run counter that increments on a one-day gap
and resets to 1 otherwise, emitting one violation each time the counter
exceeds 6 after incrementing. -/
def validateConsecutiveDaysSpec (shifts : List Shift) : List ComplianceViolation :=
  let dates := sortDates (dedupFirst [] (shifts.map Shift.date))
  let eid := shifts.head?.map Shift.employeeId
  ((dates.zip dates.tail).foldl (consecStep eid) ((1 : Nat), ([] : List ComplianceViolation))).2

/-- Weekly-hours validation as the specification words it: sum the hours of
the shifts dated within the inclusive span `[weekStart, weekStart + 6]`, then
emit at most one finding at the 60-hour or 40-hour threshold. -/
def validateWeeklyHoursSpec (shifts : List Shift) (weekStart : Date) : List ComplianceViolation :=
  let weekShifts := shifts.filter fun s =>
    decide (weekStart.toDays ≤ s.date.toDays) && decide (s.date.toDays ≤ weekStart.toDays + 6)
  let total := (weekShifts.map calculateShiftHours).sum
  if total > 60 then
    [{ type := .MAX_WEEKLY_HOURS, severity := .violation,
       details := { actual := total, limit := 60,
                    date := some weekStart,
                    employeeId := weekShifts.head?.map Shift.employeeId } }]
  else if total > 40 then
    [{ type := .MAX_WEEKLY_HOURS, severity := .warning,
       details := { actual := total, limit := 40,
                    date := some weekStart,
                    employeeId := weekShifts.head?.map Shift.employeeId } }]
  else []

end AZGSpec

namespace AZG

lemma foldl_append_eq_flatMap (f : Shift → List ComplianceViolation) :
    ∀ (l : List Shift) (acc : List ComplianceViolation),
      l.foldl (fun acc s => acc ++ f s) acc = acc ++ l.flatMap f := by
  intro l
  induction l with
  | nil => intro acc; simp
  | cons x xs ih => intro acc; simp [List.foldl_cons, ih]

lemma checkFullCompliance_violations_eq (shifts : List Shift) :
    (checkFullCompliance shifts).violations =
      shifts.flatMap validateShift ++ validateRestTime shifts ++ validateConsecutiveDays shifts := by
  simp [checkFullCompliance, foldl_append_eq_flatMap]

lemma foldl_add_eq_map_sum (f : Shift → ℚ) :
    ∀ (l : List Shift) (a : ℚ), l.foldl (fun sum s => sum + f s) a = a + (l.map f).sum := by
  intro l
  induction l with
  | nil => intro a; simp
  | cons x xs ih => intro a; simp [List.foldl_cons, ih]; ring

lemma mem_insertBy {α : Type} (lt : α → α → Bool) (x : α) (l : List α) (y : α) :
    y ∈ insertBy lt x l ↔ y = x ∨ y ∈ l := by
  induction l with
  | nil => simp [insertBy]
  | cons z zs ih =>
    simp only [insertBy]
    split_ifs with hzx
    · simp only [List.mem_cons, ih]
      tauto
    · simp [List.mem_cons]

lemma insertBy_perm {α : Type} (lt : α → α → Bool) (x : α) (l : List α) :
    (insertBy lt x l).Perm (x :: l) := by
  induction l with
  | nil => simp [insertBy]
  | cons z zs ih =>
    by_cases h : lt z x = true
    · simp only [insertBy, h, if_true]
      exact (ih.cons z).trans (List.Perm.swap x z zs)
    · simp [insertBy, h]

lemma sortBy_perm {α : Type} (lt : α → α → Bool) (l : List α) : (sortBy lt l).Perm l := by
  induction l with
  | nil => simp [sortBy]
  | cons x xs ih => exact (insertBy_perm lt x (sortBy lt xs)).trans (ih.cons x)

lemma pairwise_insertBy {α : Type} (lt : α → α → Bool)
    (hasymm : ∀ a b, lt a b = true → lt b a = false)
    (hsplit : ∀ a b c, lt a c = true → lt a b = true ∨ lt b c = true)
    (x : α) (l : List α) (h : l.Pairwise fun a b => lt b a = false) :
    (insertBy lt x l).Pairwise fun a b => lt b a = false := by
  induction l with
  | nil => simp [insertBy]
  | cons z zs ih =>
    rcases List.pairwise_cons.mp h with ⟨hz, hzs⟩
    by_cases hzx : lt z x = true
    · simp only [insertBy, hzx, if_true]
      refine List.pairwise_cons.mpr ⟨?_, ih hzs⟩
      intro y hy
      rcases (mem_insertBy lt x zs y).mp hy with rfl | hy
      · exact hasymm z y hzx
      · exact hz y hy
    · simp only [insertBy, hzx, if_false]
      refine List.pairwise_cons.mpr ⟨?_, h⟩
      intro y hy
      rcases List.mem_cons.mp hy with rfl | hy
      · exact Bool.eq_false_iff.mpr hzx
      · cases hyx : lt y x with
        | false => rfl
        | true =>
          rcases hsplit y z x hyx with h1 | h2
          · rw [hz y hy] at h1
            exact absurd h1 (by simp)
          · exact absurd h2 hzx

lemma pairwise_sortBy {α : Type} (lt : α → α → Bool)
    (hasymm : ∀ a b, lt a b = true → lt b a = false)
    (hsplit : ∀ a b c, lt a c = true → lt a b = true ∨ lt b c = true)
    (l : List α) : (sortBy lt l).Pairwise fun a b => lt b a = false := by
  induction l with
  | nil => simp [sortBy]
  | cons x xs ih => exact pairwise_insertBy lt hasymm hsplit x _ ih

lemma shiftLT_asymm (a b : Shift) (h : shiftLT a b = true) : shiftLT b a = false := by
  cases hba : shiftLT b a with
  | false => rfl
  | true =>
    exfalso
    obtain ⟨_, ⟨y1, m1, d1⟩, ⟨h1, n1⟩, _, _, _⟩ := a
    obtain ⟨_, ⟨y2, m2, d2⟩, ⟨h2, n2⟩, _, _, _⟩ := b
    simp only [shiftLT, dateLT, timeLT, Bool.or_eq_true, Bool.and_eq_true,
      decide_eq_true_eq, Date.mk.injEq] at h hba
    omega

lemma shiftLT_split (a b c : Shift) (h : shiftLT a c = true) :
    shiftLT a b = true ∨ shiftLT b c = true := by
  obtain ⟨_, ⟨y1, m1, d1⟩, ⟨h1, n1⟩, _, _, _⟩ := a
  obtain ⟨_, ⟨y2, m2, d2⟩, ⟨h2, n2⟩, _, _, _⟩ := b
  obtain ⟨_, ⟨y3, m3, d3⟩, ⟨h3, n3⟩, _, _, _⟩ := c
  simp only [shiftLT, dateLT, timeLT, Bool.or_eq_true, Bool.and_eq_true,
    decide_eq_true_eq, Date.mk.injEq] at h ⊢
  omega

lemma dateLT_asymm (a b : Date) (h : dateLT a b = true) : dateLT b a = false := by
  cases hba : dateLT b a with
  | false => rfl
  | true =>
    exfalso
    obtain ⟨y1, m1, d1⟩ := a
    obtain ⟨y2, m2, d2⟩ := b
    simp only [dateLT, Bool.or_eq_true, Bool.and_eq_true, decide_eq_true_eq] at h hba
    omega

lemma dateLT_split (a b c : Date) (h : dateLT a c = true) :
    dateLT a b = true ∨ dateLT b c = true := by
  obtain ⟨y1, m1, d1⟩ := a
  obtain ⟨y2, m2, d2⟩ := b
  obtain ⟨y3, m3, d3⟩ := c
  simp only [dateLT, Bool.or_eq_true, Bool.and_eq_true, decide_eq_true_eq] at h ⊢
  omega

lemma dedupFirst_nodup_aux (l : List Date) : ∀ seen : List Date,
    (dedupFirst seen l).Nodup ∧ ∀ d ∈ dedupFirst seen l, d ∉ seen := by
  induction l with
  | nil => intro seen; simp [dedupFirst]
  | cons d ds ih =>
    intro seen
    by_cases hd : d ∈ seen
    · simpa [dedupFirst, hd] using ih seen
    · simp only [dedupFirst, hd, if_false]
      constructor
      · refine List.nodup_cons.mpr ⟨?_, (ih (d :: seen)).1⟩
        intro hmem
        have := (ih (d :: seen)).2 d hmem
        simp at this
      · intro x hx
        rcases List.mem_cons.mp hx with rfl | hx
        · exact hd
        · intro hxs
          exact (ih (d :: seen)).2 x hx (List.mem_cons_of_mem d hxs)

lemma dedupFirst_nodup (l : List Date) : (dedupFirst [] l).Nodup :=
  (dedupFirst_nodup_aux l []).1

lemma restPairs_eq_zip (l : List Shift) :
    restPairs l = (l.zip l.tail).filterMap fun p =>
      if calculateRestHours p.1 p.2 < AZG_RULES.MIN_DAILY_REST_HOURS
      then some (restViolation p.1 p.2) else none := by
  induction l with
  | nil => rfl
  | cons a tail ih =>
    cases tail with
    | nil => rfl
    | cons b rest =>
      simp only [restPairs, List.tail_cons, List.zip_cons_cons, List.filterMap_cons]
      by_cases hc : calculateRestHours a b < AZG_RULES.MIN_DAILY_REST_HOURS
      · simp only [if_pos hc, ih, List.tail_cons, List.singleton_append]
      · simp only [if_neg hc, ih, List.tail_cons, List.nil_append]

lemma consecutiveWalk_eq_foldl (eid : Option String) (l : List Date) :
    ∀ (c : Nat) (acc : List ComplianceViolation),
      ((l.zip l.tail).foldl (AZGSpec.consecStep eid) (c, acc)).2 =
        acc ++ consecutiveWalk eid c l := by
  induction l with
  | nil => intro c acc; simp [consecutiveWalk]
  | cons d1 tail ih =>
    cases tail with
    | nil => intro c acc; simp [consecutiveWalk]
    | cons d2 rest =>
      intro c acc
      simp only [List.tail_cons, List.zip_cons_cons, List.foldl_cons]
      by_cases hdiff : d2.toDays - d1.toDays = 1
      · have hstep : AZGSpec.consecStep eid (c, acc) (d1, d2) =
            (c + 1, acc ++ (if c + 1 > AZG_RULES.MAX_CONSECUTIVE_WORK_DAYS
              then [consecViolation eid (c + 1) d2] else [])) := by
          simp only [AZGSpec.consecStep, if_pos hdiff]
          rfl
        rw [hstep]
        have hih := ih (c + 1) (acc ++ (if c + 1 > AZG_RULES.MAX_CONSECUTIVE_WORK_DAYS
          then [consecViolation eid (c + 1) d2] else []))
        simp only [List.tail_cons] at hih
        rw [hih]
        simp only [consecutiveWalk, if_pos hdiff, List.append_assoc]
      · have hstep : AZGSpec.consecStep eid (c, acc) (d1, d2) = (1, acc) := by
          simp only [AZGSpec.consecStep, if_neg hdiff]
          norm_num
        rw [hstep]
        have hih := ih 1 acc
        simp only [List.tail_cons] at hih
        rw [hih]
        simp only [consecutiveWalk, if_neg hdiff]

lemma mem_validateShift {v : ComplianceViolation} {s : Shift} (h : v ∈ validateShift s) :
    (v.severity = .warning ∧ v.type = .MISSING_BREAK) ∨
    (v.severity = .violation ∧ v.type ≠ .MISSING_BREAK) := by
  unfold validateShift at h
  dsimp only at h
  simp only [List.mem_append] at h
  rcases h with (h | h) | h <;> split_ifs at h <;> simp_all

lemma mem_restPairs {v : ComplianceViolation} : ∀ {l : List Shift}, v ∈ restPairs l →
    v.severity = .violation ∧ v.type = .MIN_REST_TIME := by
  intro l
  induction l with
  | nil => intro h; simp [restPairs] at h
  | cons a tail ih =>
    cases tail with
    | nil => intro h; simp [restPairs] at h
    | cons b rest =>
      intro h
      simp only [restPairs, List.mem_append] at h
      rcases h with h | h
      · split_ifs at h <;> simp_all [restViolation]
      · exact ih h

lemma mem_consecutiveWalk {v : ComplianceViolation} (eid : Option String) :
    ∀ (l : List Date) (c : Nat), v ∈ consecutiveWalk eid c l →
      v.severity = .violation ∧ v.type = .CONSECUTIVE_DAYS := by
  intro l
  induction l with
  | nil => intro c h; simp [consecutiveWalk] at h
  | cons d1 tail ih =>
    cases tail with
    | nil => intro c h; simp [consecutiveWalk] at h
    | cons d2 rest =>
      intro c h
      simp only [consecutiveWalk] at h
      split_ifs at h with h1 h2
      · simp only [List.mem_append, List.mem_singleton] at h
        rcases h with h | h
        · subst h; simp [consecViolation]
        · exact ih _ h
      · simp only [List.nil_append] at h
        exact ih _ h
      · exact ih _ h

end AZG

/-- C1: for every list of shifts, the report returned by `checkFullCompliance`
has score `max 0 (100 - 20 V - 5 W)`, where `V` counts violation-severity
findings and `W` warning-severity findings in its violations list, and
`isCompliant` holds exactly when `V = 0`; on the empty list the report is
`{ isCompliant := true, violations := [], score := 100 }`. -/
theorem C1_checkFullCompliance_score (shifts : List AZG.Shift) :
    (AZG.checkFullCompliance shifts).score =
      max 0 (100 -
        20 * (((AZG.checkFullCompliance shifts).violations.filter
                fun v => decide (v.severity = AZG.ViolationSeverity.violation)).length : ℤ) -
        5 * (((AZG.checkFullCompliance shifts).violations.filter
                fun v => decide (v.severity = AZG.ViolationSeverity.warning)).length : ℤ)) ∧
    ((AZG.checkFullCompliance shifts).isCompliant = true ↔
      ((AZG.checkFullCompliance shifts).violations.filter
          fun v => decide (v.severity = AZG.ViolationSeverity.violation)).length = 0) ∧
    AZG.checkFullCompliance [] = ⟨true, [], 100⟩ := by
  refine ⟨?_, ?_, by decide⟩
  · simp only [AZG.checkFullCompliance]
    congr 1
    ring
  · simp [AZG.checkFullCompliance]

/-- C2: the violations list of `checkFullCompliance` is exactly the
concatenation of `validateShift` over the shifts in input order, then
`validateRestTime`, then `validateConsecutiveDays`; `validateWeeklyHours`
does not contribute. -/
theorem C2_checkFullCompliance_order (shifts : List AZG.Shift) :
    (AZG.checkFullCompliance shifts).violations =
      shifts.flatMap AZG.validateShift ++ AZG.validateRestTime shifts
        ++ AZG.validateConsecutiveDays shifts :=
  AZG.checkFullCompliance_violations_eq shifts

/-- C3: `calculateShiftHours` computes
`((endMinutes + (1440 if end < start)) - startMinutes - breakMinutes) / 60`
from the HH:mm fields, and the result is not clamped to zero: a break longer
than the span yields a negative value, as on the 10:00–10:30 shift with a
60-minute break. -/
theorem C3_calculateShiftHours_formula :
    (∀ s : AZG.Shift, AZG.calculateShiftHours s = AZGSpec.shiftHoursSpec s) ∧
    AZG.calculateShiftHours ⟨"s", ⟨2024, 5, 1⟩, ⟨10, 0⟩, ⟨10, 30⟩, 60, "e"⟩ < 0 := by
  constructor
  · intro s
    simp only [AZG.calculateShiftHours, AZGSpec.shiftHoursSpec, AZG.HM.toMinutes]
    push_cast
    split_ifs <;> ring
  · norm_num [AZG.calculateShiftHours, AZG.HM.toMinutes]

/-- C4: `validateShift` emits exactly the findings of the three checks in
fixed order — MaxDailyHours/violation iff hours > 12 strictly,
NightWorkLimit/violation iff night work and hours > 10, MissingBreak/warning
iff hours > 6 and break < 30 — and nothing else; the 08:00–20:30 shift with a
30-minute break sits exactly on the 12-hour boundary and emits nothing. -/
theorem C4_validateShift_checks :
    (∀ s : AZG.Shift, AZG.validateShift s = AZGSpec.validateShiftSpec s) ∧
    AZG.validateShift ⟨"s", ⟨2024, 5, 1⟩, ⟨8, 0⟩, ⟨20, 30⟩, 30, "e1"⟩ = [] := by
  refine ⟨fun s => rfl, ?_⟩
  norm_num [AZG.validateShift, AZG.calculateShiftHours, AZG.HM.toMinutes, AZG.isNightWork,
    AZG.AZG_RULES.MAX_DAILY_HOURS, AZG.AZG_RULES.MAX_NIGHT_SHIFT_HOURS,
    AZG.AZG_RULES.BREAK_THRESHOLD_HOURS, AZG.AZG_RULES.MIN_BREAK_MINUTES,
    AZG.AZG_RULES.NIGHT_WORK_START, AZG.AZG_RULES.NIGHT_WORK_END]

/-- C5: `validateRestTime` sorts by (date, startTime), compares exactly the
adjacent sorted pairs using the literal end instant of the earlier shift, and
emits a MinRestTime/violation dated on the later shift and attributed to the
earlier one whenever rest < 11; the sorted list is a permutation of the input
and is pairwise non-descending in the comparator order. -/
theorem C5_validateRestTime_adjacent (shifts : List AZG.Shift) :
    AZG.validateRestTime shifts = AZGSpec.validateRestTimeSpec shifts ∧
    (AZG.sortShifts shifts).Perm shifts ∧
    (AZG.sortShifts shifts).Pairwise (fun a b => AZG.shiftLT b a = false) := by
  refine ⟨?_, AZG.sortBy_perm _ shifts,
    AZG.pairwise_sortBy _ AZG.shiftLT_asymm AZG.shiftLT_split shifts⟩
  exact AZG.restPairs_eq_zip (AZG.sortShifts shifts)

/-- C6: `validateConsecutiveDays` walks the deduplicated ascending dates with
a run counter that increments on one-day gaps and resets to 1 otherwise,
emitting one ConsecutiveDays/violation each time the counter exceeds 6 after
incrementing, attributed to the first shift of the original input; eight
consecutive dates yield exactly two findings, on days 7 and 8. -/
theorem C6_validateConsecutiveDays_walk :
    (∀ shifts : List AZG.Shift,
      AZG.validateConsecutiveDays shifts = AZGSpec.validateConsecutiveDaysSpec shifts ∧
      (AZG.sortDates (AZG.dedupFirst [] (shifts.map AZG.Shift.date))).Nodup ∧
      (AZG.sortDates (AZG.dedupFirst [] (shifts.map AZG.Shift.date))).Pairwise
        (fun a b => AZG.dateLT b a = false)) ∧
    AZG.validateConsecutiveDays
        ((List.range 8).map fun i => ⟨"s", ⟨2024, 5, i + 1⟩, ⟨9, 0⟩, ⟨15, 0⟩, 0, "e1"⟩) =
      [AZG.consecViolation (some "e1") 7 ⟨2024, 5, 7⟩,
       AZG.consecViolation (some "e1") 8 ⟨2024, 5, 8⟩] := by
  constructor
  · intro shifts
    refine ⟨?_, ?_, AZG.pairwise_sortBy _ AZG.dateLT_asymm AZG.dateLT_split _⟩
    · have h := AZG.consecutiveWalk_eq_foldl (shifts.head?.map AZG.Shift.employeeId)
        (AZG.sortDates (AZG.dedupFirst [] (shifts.map AZG.Shift.date))) 1 []
      simp only [List.nil_append] at h
      exact h.symm
    · exact ((AZG.sortBy_perm _ _).nodup_iff).mpr (AZG.dedupFirst_nodup _)
  · decide

/-- C7: `validateWeeklyHours` totals `calculateShiftHours` over exactly the
shifts dated in the inclusive span `[weekStart, weekStart + 6]` and emits at
most one finding: MaxWeeklyHours/violation above 60 hours, else
MaxWeeklyHours/warning above 40 hours, else nothing. -/
theorem C7_validateWeeklyHours_window (shifts : List AZG.Shift) (weekStart : AZG.Date) :
    AZG.validateWeeklyHours shifts weekStart = AZGSpec.validateWeeklyHoursSpec shifts weekStart ∧
    (AZG.validateWeeklyHours shifts weekStart).length ≤ 1 := by
  constructor
  · simp only [AZG.validateWeeklyHours, AZGSpec.validateWeeklyHoursSpec,
      AZG.foldl_add_eq_map_sum, zero_add, AZG.AZG_RULES.MAX_WEEKLY_HOURS,
      AZG.AZG_RULES.NORMAL_WEEKLY_HOURS]
  · unfold AZG.validateWeeklyHours
    dsimp only
    split_ifs <;> simp

/-- C8: `isNightWork` holds exactly when the start hour is at least 22, the
end hour is at most 5, or the end hour is strictly below the start hour; the
minute components never affect the result. -/
theorem C8_isNightWork_hours_only (s : AZG.Shift) :
    (AZG.isNightWork s = true ↔
      22 ≤ s.startTime.hour ∨ s.endTime.hour ≤ 5 ∨ s.endTime.hour < s.startTime.hour) ∧
    ∀ m1 m2 : Nat,
      AZG.isNightWork { s with startTime := ⟨s.startTime.hour, m1⟩,
                               endTime := ⟨s.endTime.hour, m2⟩ } = AZG.isNightWork s := by
  constructor
  · simp [AZG.isNightWork, AZG.AZG_RULES.NIGHT_WORK_START, AZG.AZG_RULES.NIGHT_WORK_END,
      or_assoc]
  · intro m1 m2
    rfl

/-- C9: when the break exceeds the minutes spanned from start to end, the
computed hours are negative, no strict threshold fires, and `validateShift`
returns the empty list. -/
theorem C9_negative_duration_passes (s : AZG.Shift)
    (h : AZG.spanMinutes s < (s.breakMinutes : ℤ)) :
    AZG.validateShift s = [] ∧ AZG.calculateShiftHours s < 0 := by
  have hh : AZG.calculateShiftHours s < 0 := by
    have heq : AZG.calculateShiftHours s =
        ((AZG.spanMinutes s - (s.breakMinutes : ℤ) : ℤ) : ℚ) / 60 := rfl
    rw [heq]
    apply div_neg_of_neg_of_pos _ (by norm_num)
    exact_mod_cast sub_neg.mpr h
  refine ⟨?_, hh⟩
  unfold AZG.validateShift
  dsimp only
  split_ifs with h1 h2 h3 <;>
    simp_all [AZG.AZG_RULES.MAX_DAILY_HOURS, AZG.AZG_RULES.MAX_NIGHT_SHIFT_HOURS,
      AZG.AZG_RULES.BREAK_THRESHOLD_HOURS] <;> linarith

/-- C9 witness: the 10:00–10:30 shift with a 60-minute break satisfies the
hypothesis and indeed produces no findings and negative hours. -/
theorem C9_negative_duration_passes_witness :
    AZG.spanMinutes ⟨"s", ⟨2024, 5, 1⟩, ⟨10, 0⟩, ⟨10, 30⟩, 60, "e"⟩ <
      ((⟨"s", ⟨2024, 5, 1⟩, ⟨10, 0⟩, ⟨10, 30⟩, 60, "e"⟩ : AZG.Shift).breakMinutes : ℤ) ∧
    (AZG.validateShift ⟨"s", ⟨2024, 5, 1⟩, ⟨10, 0⟩, ⟨10, 30⟩, 60, "e"⟩ = [] ∧
      AZG.calculateShiftHours ⟨"s", ⟨2024, 5, 1⟩, ⟨10, 0⟩, ⟨10, 30⟩, 60, "e"⟩ < 0) :=
  ⟨by decide, C9_negative_duration_passes _ (by decide)⟩

/-- C10: in every report of `checkFullCompliance`, each warning-severity
finding has type MissingBreak, and the report is compliant exactly when every
finding in its violations list has type MissingBreak. -/
theorem C10_warnings_are_missing_break (shifts : List AZG.Shift) :
    (∀ v ∈ (AZG.checkFullCompliance shifts).violations,
        v.severity = AZG.ViolationSeverity.warning → v.type = AZG.ViolationType.MISSING_BREAK) ∧
    ((AZG.checkFullCompliance shifts).isCompliant = true ↔
      ∀ v ∈ (AZG.checkFullCompliance shifts).violations,
        v.type = AZG.ViolationType.MISSING_BREAK) := by
  have hdich : ∀ v ∈ (AZG.checkFullCompliance shifts).violations,
      (v.severity = AZG.ViolationSeverity.warning ∧ v.type = AZG.ViolationType.MISSING_BREAK) ∨
      (v.severity = AZG.ViolationSeverity.violation ∧
        v.type ≠ AZG.ViolationType.MISSING_BREAK) := by
    intro v hv
    rw [AZG.checkFullCompliance_violations_eq] at hv
    simp only [List.mem_append, List.mem_flatMap] at hv
    rcases hv with (⟨s, _, hs⟩ | hr) | hc
    · exact AZG.mem_validateShift hs
    · have h2 := AZG.mem_restPairs hr
      exact Or.inr ⟨h2.1, by simp [h2.2]⟩
    · have h2 := AZG.mem_consecutiveWalk _ _ _ hc
      exact Or.inr ⟨h2.1, by simp [h2.2]⟩
  have hiff : (AZG.checkFullCompliance shifts).isCompliant = true ↔
      ∀ v ∈ (AZG.checkFullCompliance shifts).violations,
        v.severity ≠ AZG.ViolationSeverity.violation := by
    simp only [AZG.checkFullCompliance, decide_eq_true_eq, List.length_eq_zero,
      List.filter_eq_nil_iff, decide_eq_true_eq, List.mem_append]
  constructor
  · intro v hv hw
    rcases hdich v hv with ⟨_, ht⟩ | ⟨hs, _⟩
    · exact ht
    · rw [hs] at hw; cases hw
  · rw [hiff]
    constructor
    · intro hall v hv
      rcases hdich v hv with ⟨_, ht⟩ | ⟨hs, _⟩
      · exact ht
      · exact absurd hs (hall v hv)
    · intro hall v hv
      rcases hdich v hv with ⟨hs, _⟩ | ⟨_, ht⟩
      · rw [hs]; simp
      · exact absurd (hall v hv) ht
